import Mathlib

/-!
Verification of the share-allocation engine of the proportial-rent
repository (`src/src/App.tsx`, submit handler `onValid`, lines 120-200).

The engine is embedded shallowly over the rationals `ℚ` (JavaScript's
IEEE doubles idealised to exact arithmetic, matching the spec's
"within floating-point tolerance" reading).  Every definition below is a
direct translation of the corresponding constant inside `onValid`, with
the same name where Lean allows it; the imperative `deltaBalance`
accumulator threaded through the first `map` is translated as an
explicit left-to-right accumulator pass (`limitsPass`).
-/

namespace RentShares

/-- The `incomeType` discriminated union of the zod `Participant` schema:
`hourly` carries `hourlyRate` and `hoursPerWeek`, `salary` carries
`annualSalary` (App.tsx lines 47-64). -/
inductive IncomeDetails where
  | hourly (hourlyRate : ℚ) (hoursPerWeek : ℚ)
  | salary (annualSalary : ℚ)
deriving DecidableEq

/-- A participant (zod `Participant`, App.tsx lines 41-66). -/
structure Participant where
  name : String
  limited : Bool
  income : IncomeDetails
deriving DecidableEq

/-- The validated form data (zod `BillPay`, App.tsx lines 68-75). -/
structure BillPay where
  amount : ℚ
  maximumLimit : ℚ
  minimumLimit : ℚ
  participants : List Participant
deriving DecidableEq

/-- One row of the results table (`RelevantInfo`, App.tsx lines 77-82). -/
structure RelevantInfo where
  grossMonthlyIncome : ℚ
  percentageOfTotal : ℚ
  amountDue : ℚ
  adjustedDue : ℚ
deriving DecidableEq

/-- The body of the arrow function mapped over `data.participants`
(App.tsx lines 122-128): hourly income is `hourlyRate * hoursPerWeek * 4`,
salaried income is `annualSalary / 12`. -/
def monthlyGross (p : Participant) : ℚ :=
  match p.income with
  | .hourly hourlyRate hoursPerWeek => hourlyRate * hoursPerWeek * 4
  | .salary annualSalary => annualSalary / 12

/-- `participantMonthlyGross` (App.tsx lines 122-128). -/
def participantMonthlyGross (data : BillPay) : List ℚ :=
  data.participants.map monthlyGross

/-- `nonLimitedParticipantCount` (App.tsx lines 131-133). -/
def nonLimitedParticipantCount (data : BillPay) : ℕ :=
  (data.participants.filter (fun p => !p.limited)).length

/-- `totalGross` (App.tsx lines 136-139): a `reduce` with initial
accumulator `0`, i.e. a left fold of addition. -/
def totalGross (data : BillPay) : ℚ :=
  (participantMonthlyGross data).foldl (fun acc income => acc + income) 0

/-- `incomePercentages` (App.tsx lines 142-144). -/
def incomePercentages (data : BillPay) : List ℚ :=
  (participantMonthlyGross data).map (fun income => income / totalGross data * 100)

/-- `nonLimitedDues` (App.tsx lines 147-150): maps over
`participantMonthlyGross` with the element ignored, reading
`incomePercentages[index]` and returning `amount * (percentage / 100)`. -/
def nonLimitedDues (data : BillPay) : List ℚ :=
  (List.range (participantMonthlyGross data).length).map (fun index =>
    data.amount * ((incomePercentages data).getD index 0 / 100))

/-- JavaScript `x || 0` on a number: `0` when `x` is falsy (i.e. zero),
otherwise `x` (App.tsx lines 161-162). -/
def truthyOrZero (x : ℚ) : ℚ :=
  if x = 0 then 0 else x

/-- One iteration of the `limitedDues` map body (App.tsx lines 158-175)
at accumulator value `acc`: returns the updated `deltaBalance`
accumulator and the clamped due.  `if (max && due > max)` tests the
truthiness of `max`, i.e. `max ≠ 0`, and likewise for `min`. -/
def limitsStep (maxL minL : ℚ) (p : Participant) (due : ℚ) (acc : ℚ) : ℚ × ℚ :=
  if p.limited then
    if maxL ≠ 0 ∧ due > maxL then (acc + (due - maxL), maxL)
    else if minL ≠ 0 ∧ due < minL then (acc + (due - minL), minL)
    else (acc, due)
  else (acc, due)

/-- The `nonLimitedDues.map(...)` of App.tsx lines 158-175, with the
mutable `deltaBalance` (initialised at line 155) made explicit: the map
runs left to right over the (participant, due) pairs, threading the
accumulator, and yields the list of clamped dues together with the final
accumulator value. -/
def limitsPass (maxL minL : ℚ) : List (Participant × ℚ) → ℚ → List ℚ × ℚ
  | [], acc => ([], acc)
  | pd :: rest, acc =>
    let s := limitsStep maxL minL pd.1 pd.2 acc
    let r := limitsPass maxL minL rest s.1
    (s.2 :: r.1, r.2)

/-- `limitedDues` (App.tsx lines 158-175): first component of the pass. -/
def limitedDues (data : BillPay) : List ℚ :=
  (limitsPass (truthyOrZero data.maximumLimit) (truthyOrZero data.minimumLimit)
    (data.participants.zip (nonLimitedDues data)) 0).1

/-- The final value of the `deltaBalance` variable after the limits map
has run (App.tsx lines 155-175). -/
def deltaBalance (data : BillPay) : ℚ :=
  (limitsPass (truthyOrZero data.maximumLimit) (truthyOrZero data.minimumLimit)
    (data.participants.zip (nonLimitedDues data)) 0).2

/-- `adjustedDues` (App.tsx lines 177-184): non-limited participants
receive `due + deltaBalance / nonLimitedParticipantCount`, limited
participants keep their clamped due. -/
def adjustedDues (data : BillPay) : List ℚ :=
  (data.participants.zip (limitedDues data)).map (fun pd =>
    if !pd.1.limited then
      pd.2 + deltaBalance data / (nonLimitedParticipantCount data : ℚ)
    else pd.2)

/-- The results list passed to `setResults` (App.tsx lines 187-196):
one `RelevantInfo` per participant index, read off the four arrays. -/
def results (data : BillPay) : List RelevantInfo :=
  (List.range data.participants.length).map (fun index =>
    { grossMonthlyIncome := (participantMonthlyGross data).getD index 0
      percentageOfTotal := (incomePercentages data).getD index 0
      amountDue := (nonLimitedDues data).getD index 0
      adjustedDue := (adjustedDues data).getD index 0 })

/-- The whole submit handler `onValid` (App.tsx lines 120-200), viewed as
a pure function: the pair of the results list (`setResults`) and the
household gross income (`setTotalGross`). -/
def onValid (data : BillPay) : List RelevantInfo × ℚ :=
  (results data, totalGross data)

/-- The zod validation of a single participant (App.tsx lines 47-64):
hourly rate `> 0`, hours per week in `(0, 168)`, annual salary `> 0`. -/
def validParticipant (p : Participant) : Bool :=
  match p.income with
  | .hourly hourlyRate hoursPerWeek =>
      decide (0 < hourlyRate) && decide (0 < hoursPerWeek) && decide (hoursPerWeek < 168)
  | .salary annualSalary => decide (0 < annualSalary)

/-- A valid, non-empty submission: positive bill amount (zod `BillPay`,
App.tsx line 69), at least one participant, and every participant passing
the zod participant schema. -/
def validBillPay (data : BillPay) : Bool :=
  decide (0 < data.amount) && !data.participants.isEmpty &&
    data.participants.all validParticipant

/-- Default `Participant` used for out-of-range `getD` reads in statements. -/
def defaultParticipant : Participant :=
  ⟨"", false, .salary 0⟩

/-- Default `RelevantInfo` used for out-of-range `getD` reads in statements. -/
def defaultInfo : RelevantInfo :=
  ⟨0, 0, 0, 0⟩

/-! ## Structural lemmas

The accumulator pass is explained by a pure per-participant clamping
function, and every intermediate array of the engine is shown to be a
`map` over the participant list. -/

/-- Pure per-element value of the clamping pass: the clamped due of one
participant, independent of the accumulator. -/
def clampDue (maxL minL : ℚ) (p : Participant) (due : ℚ) : ℚ :=
  if p.limited then
    if maxL ≠ 0 ∧ due > maxL then maxL
    else if minL ≠ 0 ∧ due < minL then minL
    else due
  else due

lemma truthyOrZero_eq (x : ℚ) : truthyOrZero x = x := by
  unfold truthyOrZero
  split <;> simp [*]

lemma limitsStep_snd (maxL minL : ℚ) (p : Participant) (due acc : ℚ) :
    (limitsStep maxL minL p due acc).2 = clampDue maxL minL p due := by
  unfold limitsStep clampDue
  split <;> [skip; rfl]
  split <;> [rfl; skip]
  split <;> rfl

lemma limitsStep_fst (maxL minL : ℚ) (p : Participant) (due acc : ℚ) :
    (limitsStep maxL minL p due acc).1 = acc + (due - clampDue maxL minL p due) := by
  unfold limitsStep clampDue
  split
  · split
    · simp
    · split <;> simp
  · simp

lemma limitsPass_fst (maxL minL : ℚ) (l : List (Participant × ℚ)) (acc : ℚ) :
    (limitsPass maxL minL l acc).1 = l.map (fun pd => clampDue maxL minL pd.1 pd.2) := by
  induction l generalizing acc with
  | nil => rfl
  | cons pd rest ih => simp [limitsPass, limitsStep_snd, ih]

lemma limitsPass_snd (maxL minL : ℚ) (l : List (Participant × ℚ)) (acc : ℚ) :
    (limitsPass maxL minL l acc).2 =
      acc + (l.map (fun pd => pd.2 - clampDue maxL minL pd.1 pd.2)).sum := by
  induction l generalizing acc with
  | nil => simp [limitsPass]
  | cons pd rest ih =>
    simp only [limitsPass, ih, limitsStep_fst, List.map_cons, List.sum_cons]
    ring

/-- Per-participant percentage of total (the body of `incomePercentages`). -/
def pctOf (data : BillPay) (p : Participant) : ℚ :=
  monthlyGross p / totalGross data * 100

/-- Per-participant unadjusted due (the body of `nonLimitedDues`). -/
def dueOf (data : BillPay) (p : Participant) : ℚ :=
  data.amount * (pctOf data p / 100)

/-- Per-participant clamped due. -/
def clampedOf (data : BillPay) (p : Participant) : ℚ :=
  clampDue data.maximumLimit data.minimumLimit p (dueOf data p)

/-- Per-participant final due after redistribution. -/
def adjustedOf (data : BillPay) (p : Participant) : ℚ :=
  if !p.limited then
    clampedOf data p + deltaBalance data / (nonLimitedParticipantCount data : ℚ)
  else clampedOf data p

lemma getD_map_of_lt {α β : Type} (l : List α) (f : α → β) (d : α) (d2 : β)
    (i : ℕ) (h : i < l.length) :
    (l.map f).getD i d2 = f (l.getD i d) := by
  rw [List.getD_eq_getElem?_getD, List.getD_eq_getElem?_getD, List.getElem?_map,
    List.getElem?_eq_getElem h]
  rfl

lemma range_map_eq_map {α β : Type} (l : List α) (F : ℕ → β) (f : α → β)
    (hF : ∀ i (h : i < l.length), F i = f (l.get ⟨i, h⟩)) :
    (List.range l.length).map F = l.map f := by
  apply List.ext_getElem
  · simp
  · intro i h1 h2
    simp only [List.getElem_map, List.getElem_range]
    rw [hF i (by simpa using h2)]
    simp [List.get_eq_getElem]

lemma incomePercentages_eq (data : BillPay) :
    incomePercentages data = data.participants.map (pctOf data) := by
  simp only [incomePercentages, participantMonthlyGross, List.map_map]
  rfl

lemma nonLimitedDues_eq (data : BillPay) :
    nonLimitedDues data = data.participants.map (dueOf data) := by
  unfold nonLimitedDues
  rw [participantMonthlyGross, List.length_map, range_map_eq_map]
  intro i h
  rw [incomePercentages_eq, getD_map_of_lt _ _ defaultParticipant _ _ h]
  simp [dueOf, List.getD_eq_getElem?_getD, List.getElem?_eq_getElem h]

lemma zip_dues (data : BillPay) :
    data.participants.zip (nonLimitedDues data) =
      data.participants.map (fun p => (p, dueOf data p)) := by
  rw [nonLimitedDues_eq]
  simpa using List.zip_map' id (dueOf data) data.participants

lemma limitedDues_eq (data : BillPay) :
    limitedDues data = data.participants.map (clampedOf data) := by
  rw [limitedDues, truthyOrZero_eq, truthyOrZero_eq, zip_dues, limitsPass_fst,
    List.map_map]
  rfl

lemma deltaBalance_eq (data : BillPay) :
    deltaBalance data =
      (data.participants.map (fun p => dueOf data p - clampedOf data p)).sum := by
  rw [deltaBalance, truthyOrZero_eq, truthyOrZero_eq, zip_dues, limitsPass_snd,
    List.map_map, zero_add]
  rfl

lemma zip_limited (data : BillPay) :
    data.participants.zip (limitedDues data) =
      data.participants.map (fun p => (p, clampedOf data p)) := by
  rw [limitedDues_eq]
  simpa using List.zip_map' id (clampedOf data) data.participants

lemma adjustedDues_eq (data : BillPay) :
    adjustedDues data = data.participants.map (adjustedOf data) := by
  rw [adjustedDues, zip_limited, List.map_map]
  rfl

lemma results_eq (data : BillPay) :
    results data = data.participants.map (fun p =>
      ⟨monthlyGross p, pctOf data p, dueOf data p, adjustedOf data p⟩) := by
  unfold results
  rw [range_map_eq_map]
  intro i h
  rw [participantMonthlyGross, incomePercentages_eq, nonLimitedDues_eq, adjustedDues_eq,
    getD_map_of_lt _ _ defaultParticipant _ _ h, getD_map_of_lt _ _ defaultParticipant _ _ h,
    getD_map_of_lt _ _ defaultParticipant _ _ h, getD_map_of_lt _ _ defaultParticipant _ _ h]
  simp [List.getD_eq_getElem?_getD, List.getElem?_eq_getElem h]

lemma results_getD (data : BillPay) (i : ℕ) (h : i < data.participants.length) :
    (results data).getD i defaultInfo =
      ⟨monthlyGross (data.participants.getD i defaultParticipant),
       pctOf data (data.participants.getD i defaultParticipant),
       dueOf data (data.participants.getD i defaultParticipant),
       adjustedOf data (data.participants.getD i defaultParticipant)⟩ := by
  rw [results_eq, getD_map_of_lt _ _ defaultParticipant _ _ h]

/-! ## Sum lemmas -/

lemma foldl_add_eq_sum (l : List ℚ) (acc : ℚ) :
    l.foldl (fun a b => a + b) acc = acc + l.sum := by
  induction l generalizing acc with
  | nil => simp
  | cons x xs ih => simp [ih, add_assoc]

lemma totalGross_eq (data : BillPay) :
    totalGross data = (data.participants.map monthlyGross).sum := by
  rw [totalGross, participantMonthlyGross, foldl_add_eq_sum, zero_add]

lemma sum_map_sub {α : Type} (l : List α) (f g : α → ℚ) :
    (l.map (fun a => f a - g a)).sum = (l.map f).sum - (l.map g).sum := by
  induction l with
  | nil => simp
  | cons x xs ih =>
    simp only [List.map_cons, List.sum_cons, ih]
    ring

lemma sum_map_add {α : Type} (l : List α) (f g : α → ℚ) :
    (l.map (fun a => f a + g a)).sum = (l.map f).sum + (l.map g).sum := by
  induction l with
  | nil => simp
  | cons x xs ih =>
    simp only [List.map_cons, List.sum_cons, ih]
    ring

lemma sum_map_ite_unlimited (l : List Participant) (c : ℚ) :
    (l.map (fun p => if !p.limited then c else 0)).sum =
      ((l.filter (fun p => !p.limited)).length : ℚ) * c := by
  induction l with
  | nil => simp
  | cons p rest ih =>
    rw [List.map_cons, List.sum_cons, ih, List.filter_cons]
    by_cases hp : p.limited
    · simp [hp]
    · simp only [hp, Bool.not_false, if_true, List.length_cons]
      push_cast
      ring

lemma sum_dueOf (data : BillPay) (hT : totalGross data ≠ 0) :
    (data.participants.map (dueOf data)).sum = data.amount := by
  have h1 : ∀ p, dueOf data p = data.amount / totalGross data * monthlyGross p := by
    intro p
    unfold dueOf pctOf
    field_simp
    ring
  rw [List.map_congr_left (fun p _ => h1 p), List.sum_map_mul_left, ← totalGross_eq,
    div_mul_cancel₀ _ hT]

lemma sum_pctOf (data : BillPay) (hT : totalGross data ≠ 0) :
    (data.participants.map (pctOf data)).sum = 100 := by
  have h1 : ∀ p, pctOf data p = 100 / totalGross data * monthlyGross p := by
    intro p
    unfold pctOf
    field_simp
    ring
  rw [List.map_congr_left (fun p _ => h1 p), List.sum_map_mul_left, ← totalGross_eq,
    div_mul_cancel₀ _ hT]

/-! ## Validity lemmas -/

lemma validParticipant_gross_pos (p : Participant) (h : validParticipant p = true) :
    0 < monthlyGross p := by
  unfold validParticipant at h
  unfold monthlyGross
  cases hp : p.income with
  | hourly hourlyRate hoursPerWeek =>
    rw [hp] at h
    simp only [Bool.and_eq_true, decide_eq_true_eq] at h
    have := mul_pos h.1.1 h.1.2
    positivity
  | salary annualSalary =>
    rw [hp] at h
    simp only [decide_eq_true_eq] at h
    positivity

lemma validBillPay_parts (data : BillPay) (h : validBillPay data = true) :
    0 < data.amount ∧ data.participants ≠ [] ∧
      ∀ p ∈ data.participants, validParticipant p = true := by
  unfold validBillPay at h
  simp only [Bool.and_eq_true, decide_eq_true_eq, Bool.not_eq_true',
    List.isEmpty_eq_false, List.all_eq_true] at h
  exact ⟨h.1.1, h.1.2, h.2⟩

lemma totalGross_pos (data : BillPay) (h : validBillPay data = true) :
    0 < totalGross data := by
  obtain ⟨-, hne, hall⟩ := validBillPay_parts data h
  rw [totalGross_eq]
  apply List.sum_pos
  · intro x hx
    obtain ⟨p, hp, rfl⟩ := List.mem_map.mp hx
    exact validParticipant_gross_pos p (hall p hp)
  · simpa using hne

/-! ## Conservation lemmas -/

lemma sum_clampedOf (data : BillPay) :
    (data.participants.map (clampedOf data)).sum =
      (data.participants.map (dueOf data)).sum - deltaBalance data := by
  rw [deltaBalance_eq, sum_map_sub]
  ring

lemma sum_adjustedOf (data : BillPay) (hT : totalGross data ≠ 0)
    (hnd : 0 < nonLimitedParticipantCount data ∨ deltaBalance data = 0) :
    (data.participants.map (adjustedOf data)).sum = data.amount := by
  have hsplit : ∀ p, adjustedOf data p =
      clampedOf data p + (if !p.limited then
        deltaBalance data / (nonLimitedParticipantCount data : ℚ) else 0) := by
    intro p
    unfold adjustedOf
    by_cases hp : p.limited <;> simp [hp]
  rw [List.map_congr_left (fun p _ => hsplit p), sum_map_add, sum_map_ite_unlimited,
    sum_clampedOf, sum_dueOf data hT]
  have hcount : ((data.participants.filter (fun p => !p.limited)).length : ℚ) =
      (nonLimitedParticipantCount data : ℚ) := by
    rw [nonLimitedParticipantCount]
  rw [hcount]
  rcases hnd with hc | hz
  · have hc0 : (nonLimitedParticipantCount data : ℚ) ≠ 0 := by
      have hq : (0:ℚ) < (nonLimitedParticipantCount data : ℚ) := by exact_mod_cast hc
      exact ne_of_gt hq
    rw [← mul_div_assoc, mul_div_cancel_left₀ _ hc0]
    ring
  · rw [hz]
    simp

/-! ## Engine-output projections -/

lemma onValid_map_adjustedDue (data : BillPay) :
    (onValid data).1.map (fun r => r.adjustedDue) =
      data.participants.map (adjustedOf data) := by
  show (results data).map (fun r => r.adjustedDue) = _
  rw [results_eq, List.map_map]
  rfl

lemma onValid_map_amountDue (data : BillPay) :
    (onValid data).1.map (fun r => r.amountDue) =
      data.participants.map (dueOf data) := by
  show (results data).map (fun r => r.amountDue) = _
  rw [results_eq, List.map_map]
  rfl

lemma onValid_map_percentageOfTotal (data : BillPay) :
    (onValid data).1.map (fun r => r.percentageOfTotal) =
      data.participants.map (pctOf data) := by
  show (results data).map (fun r => r.percentageOfTotal) = _
  rw [results_eq, List.map_map]
  rfl

lemma onValid_fst (data : BillPay) : (onValid data).1 = results data :=
  rfl

lemma onValid_snd (data : BillPay) : (onValid data).2 = totalGross data :=
  rfl

/-! ## Claim theorems -/

/-- C1: for every valid non-degenerate input (positive bill amount,
non-empty participant list, and either at least one participant with
`limited = false` or a clamping delta of zero), the sum of `adjustedDue`
over all participants equals the bill amount. -/
theorem adjustedDue_sum_eq_amount (data : BillPay)
    (hv : validBillPay data = true)
    (hnd : 0 < nonLimitedParticipantCount data ∨ deltaBalance data = 0) :
    ((onValid data).1.map (fun r => r.adjustedDue)).sum = data.amount := by
  rw [onValid_map_adjustedDue]
  exact sum_adjustedOf data (ne_of_gt (totalGross_pos data hv)) hnd

theorem adjustedDue_sum_eq_amount_witness :
    ((onValid ⟨1000, 400, 0,
        [⟨"A", true, .salary 30000⟩, ⟨"B", false, .salary 30000⟩]⟩).1.map
      (fun r => r.adjustedDue)).sum = (1000:ℚ) :=
  adjustedDue_sum_eq_amount
    ⟨1000, 400, 0, [⟨"A", true, .salary 30000⟩, ⟨"B", false, .salary 30000⟩]⟩
    (by norm_num [validBillPay, validParticipant])
    (Or.inl (by decide))

/-- C2 (code bug): at the degenerate input of Scenario D — a valid
submission in which every participant is limited and the clamping delta
is nonzero — the engine does not detect anything and does not fail: it
returns an ordinary full results list (the output type has no error
kind), and the returned `adjustedDue` values sum to 400, not to the bill
amount 1000.  (In this all-limited case the JavaScript code never even
reaches the division by the zero unlimited-participant count, so no
`NaN`/`Infinity` appears either: the delta is silently dropped.) -/
theorem degenerateInput_no_failure :
    validBillPay ⟨1000, 400, 0, [⟨"A", true, .salary 30000⟩]⟩ = true ∧
    nonLimitedParticipantCount ⟨1000, 400, 0, [⟨"A", true, .salary 30000⟩]⟩ = 0 ∧
    deltaBalance ⟨1000, 400, 0, [⟨"A", true, .salary 30000⟩]⟩ = 600 ∧
    (onValid ⟨1000, 400, 0, [⟨"A", true, .salary 30000⟩]⟩).1 =
      [⟨2500, 100, 1000, 400⟩] ∧
    ((onValid ⟨1000, 400, 0, [⟨"A", true, .salary 30000⟩]⟩).1.map
      (fun r => r.adjustedDue)).sum ≠
      (⟨1000, 400, 0, [⟨"A", true, .salary 30000⟩]⟩ : BillPay).amount := by
  norm_num [onValid, results, participantMonthlyGross, incomePercentages,
    nonLimitedDues, totalGross, monthlyGross, adjustedDues, limitedDues,
    deltaBalance, limitsPass, limitsStep, truthyOrZero,
    nonLimitedParticipantCount, validBillPay, validParticipant, List.range_succ]

/-- C3: the clamping pass, per participant: a participant with
`limited = false` passes through unchanged; a limited participant whose
due exceeds a nonzero `maximumLimit` is clamped to it (the max branch is
checked first, with no condition on the minimum); otherwise a limited
participant whose due is below a nonzero `minimumLimit` is clamped to it;
otherwise the due is unchanged (in particular a zero limit disables that
bound).  The delta balance accumulates exactly the clamped-away amounts:
it equals the sum of the unadjusted dues minus the sum of the clamped
dues. -/
theorem clampingPass_spec (data : BillPay) (i : ℕ)
    (h : i < data.participants.length) :
    ((data.participants.getD i defaultParticipant).limited = false →
      (limitedDues data).getD i 0 = (nonLimitedDues data).getD i 0) ∧
    ((data.participants.getD i defaultParticipant).limited = true →
      data.maximumLimit ≠ 0 →
      (nonLimitedDues data).getD i 0 > data.maximumLimit →
      (limitedDues data).getD i 0 = data.maximumLimit) ∧
    ((data.participants.getD i defaultParticipant).limited = true →
      ¬(data.maximumLimit ≠ 0 ∧
          (nonLimitedDues data).getD i 0 > data.maximumLimit) →
      data.minimumLimit ≠ 0 →
      (nonLimitedDues data).getD i 0 < data.minimumLimit →
      (limitedDues data).getD i 0 = data.minimumLimit) ∧
    ((data.participants.getD i defaultParticipant).limited = true →
      ¬(data.maximumLimit ≠ 0 ∧
          (nonLimitedDues data).getD i 0 > data.maximumLimit) →
      ¬(data.minimumLimit ≠ 0 ∧
          (nonLimitedDues data).getD i 0 < data.minimumLimit) →
      (limitedDues data).getD i 0 = (nonLimitedDues data).getD i 0) ∧
    deltaBalance data = (nonLimitedDues data).sum - (limitedDues data).sum := by
  have hld : (limitedDues data).getD i 0 =
      clampedOf data (data.participants.getD i defaultParticipant) := by
    rw [limitedDues_eq, getD_map_of_lt _ _ defaultParticipant _ _ h]
  have hnd : (nonLimitedDues data).getD i 0 =
      dueOf data (data.participants.getD i defaultParticipant) := by
    rw [nonLimitedDues_eq, getD_map_of_lt _ _ defaultParticipant _ _ h]
  rw [hld, hnd]
  refine ⟨?_, ?_, ?_, ?_, ?_⟩
  · intro hlim
    unfold clampedOf clampDue
    rw [if_neg (by rw [hlim]; simp)]
  · intro hlim hmax hdue
    unfold clampedOf clampDue
    rw [if_pos hlim, if_pos ⟨hmax, hdue⟩]
  · intro hlim hnotmax hmin hdue
    unfold clampedOf clampDue
    rw [if_pos hlim, if_neg hnotmax, if_pos ⟨hmin, hdue⟩]
  · intro hlim hnotmax hnotmin
    unfold clampedOf clampDue
    rw [if_pos hlim, if_neg hnotmax, if_neg hnotmin]
  · rw [deltaBalance_eq, sum_map_sub, nonLimitedDues_eq, limitedDues_eq]

theorem clampingPass_spec_witness :
    (limitedDues ⟨1000, 400, 300,
      [⟨"A", true, .salary 30000⟩, ⟨"B", false, .salary 30000⟩]⟩).getD 0 0 = 400 ∧
    deltaBalance ⟨1000, 400, 300,
        [⟨"A", true, .salary 30000⟩, ⟨"B", false, .salary 30000⟩]⟩ =
      (nonLimitedDues ⟨1000, 400, 300,
        [⟨"A", true, .salary 30000⟩, ⟨"B", false, .salary 30000⟩]⟩).sum -
      (limitedDues ⟨1000, 400, 300,
        [⟨"A", true, .salary 30000⟩, ⟨"B", false, .salary 30000⟩]⟩).sum := by
  have h := clampingPass_spec
    ⟨1000, 400, 300, [⟨"A", true, .salary 30000⟩, ⟨"B", false, .salary 30000⟩]⟩
    0 (by decide)
  refine ⟨h.2.1 rfl (by norm_num) ?_, h.2.2.2.2⟩
  norm_num [nonLimitedDues, incomePercentages, participantMonthlyGross,
    totalGross, monthlyGross, List.range_succ]

/-- C4: the redistribution pass, per participant: a participant with
`limited = false` receives `adjustedDue` equal to their unadjusted due
plus `deltaBalance / nonLimitedParticipantCount`; a participant with
`limited = true` receives `adjustedDue` equal to their clamped due
unchanged. -/
theorem redistributionPass_spec (data : BillPay) (i : ℕ)
    (h : i < data.participants.length) :
    ((data.participants.getD i defaultParticipant).limited = false →
      ((onValid data).1.getD i defaultInfo).adjustedDue =
        (nonLimitedDues data).getD i 0 +
          deltaBalance data / (nonLimitedParticipantCount data : ℚ)) ∧
    ((data.participants.getD i defaultParticipant).limited = true →
      ((onValid data).1.getD i defaultInfo).adjustedDue =
        (limitedDues data).getD i 0) := by
  have hld : (limitedDues data).getD i 0 =
      clampedOf data (data.participants.getD i defaultParticipant) := by
    rw [limitedDues_eq, getD_map_of_lt _ _ defaultParticipant _ _ h]
  have hnd : (nonLimitedDues data).getD i 0 =
      dueOf data (data.participants.getD i defaultParticipant) := by
    rw [nonLimitedDues_eq, getD_map_of_lt _ _ defaultParticipant _ _ h]
  constructor
  · intro hlim
    rw [onValid_fst, results_getD data i h, hnd]
    unfold adjustedOf clampedOf clampDue
    rw [hlim]
    simp
  · intro hlim
    rw [onValid_fst, results_getD data i h, hld]
    unfold adjustedOf
    rw [hlim]
    simp

theorem redistributionPass_spec_witness :
    ((onValid ⟨1000, 400, 300,
        [⟨"A", true, .salary 30000⟩, ⟨"B", false, .salary 30000⟩]⟩).1.getD 1
      defaultInfo).adjustedDue =
      (nonLimitedDues ⟨1000, 400, 300,
        [⟨"A", true, .salary 30000⟩, ⟨"B", false, .salary 30000⟩]⟩).getD 1 0 +
      deltaBalance ⟨1000, 400, 300,
          [⟨"A", true, .salary 30000⟩, ⟨"B", false, .salary 30000⟩]⟩ /
        (nonLimitedParticipantCount ⟨1000, 400, 300,
          [⟨"A", true, .salary 30000⟩, ⟨"B", false, .salary 30000⟩]⟩ : ℚ) :=
  (redistributionPass_spec
    ⟨1000, 400, 300, [⟨"A", true, .salary 30000⟩, ⟨"B", false, .salary 30000⟩]⟩
    1 (by decide)).1 rfl

/-- C5: for every participant, the `grossMonthlyIncome` reported in the
results equals `hourlyRate * hoursPerWeek * 4` when the income type is
hourly, and `annualSalary / 12` when it is salary. -/
theorem grossMonthlyIncome_formula (data : BillPay) (i : ℕ)
    (h : i < data.participants.length) :
    ((onValid data).1.getD i defaultInfo).grossMonthlyIncome =
      (match (data.participants.getD i defaultParticipant).income with
        | .hourly hourlyRate hoursPerWeek => hourlyRate * hoursPerWeek * 4
        | .salary annualSalary => annualSalary / 12) := by
  rw [onValid_fst, results_getD data i h]
  rfl

theorem grossMonthlyIncome_formula_witness :
    ((onValid ⟨1000, 0, 0, [⟨"C", false, .hourly 15 40⟩]⟩).1.getD 0
      defaultInfo).grossMonthlyIncome = 2400 := by
  refine (grossMonthlyIncome_formula
    ⟨1000, 0, 0, [⟨"C", false, .hourly 15 40⟩]⟩ 0 (by decide)).trans ?_
  show (15:ℚ) * 40 * 4 = 2400
  norm_num

/-- C6: for every valid input, the sum of `amountDue` over all
participants equals the bill amount and the sum of `percentageOfTotal`
over all participants equals 100. -/
theorem proportionalSplit_conserved (data : BillPay)
    (hv : validBillPay data = true) :
    ((onValid data).1.map (fun r => r.amountDue)).sum = data.amount ∧
    ((onValid data).1.map (fun r => r.percentageOfTotal)).sum = 100 := by
  have hT := ne_of_gt (totalGross_pos data hv)
  constructor
  · rw [onValid_map_amountDue]
    exact sum_dueOf data hT
  · rw [onValid_map_percentageOfTotal]
    exact sum_pctOf data hT

theorem proportionalSplit_conserved_witness :
    ((onValid ⟨1000, 0, 0,
        [⟨"A", false, .salary 30000⟩, ⟨"B", false, .salary 30000⟩]⟩).1.map
      (fun r => r.amountDue)).sum = (1000:ℚ) ∧
    ((onValid ⟨1000, 0, 0,
        [⟨"A", false, .salary 30000⟩, ⟨"B", false, .salary 30000⟩]⟩).1.map
      (fun r => r.percentageOfTotal)).sum = 100 :=
  proportionalSplit_conserved
    ⟨1000, 0, 0, [⟨"A", false, .salary 30000⟩, ⟨"B", false, .salary 30000⟩]⟩
    (by norm_num [validBillPay, validParticipant])

/-- C7: for every valid input in which no participant is limited,
`adjustedDue` equals `amountDue` for every participant. -/
theorem noLimited_adjusted_eq_amountDue (data : BillPay)
    (_hv : validBillPay data = true)
    (hnl : ∀ p ∈ data.participants, p.limited = false) :
    (onValid data).1.map (fun r => r.adjustedDue) =
      (onValid data).1.map (fun r => r.amountDue) := by
  rw [onValid_map_adjustedDue, onValid_map_amountDue]
  have hclamp : ∀ q ∈ data.participants, clampedOf data q = dueOf data q := by
    intro q hq
    unfold clampedOf clampDue
    rw [if_neg (by simp [hnl q hq])]
  have hdelta : deltaBalance data = 0 := by
    rw [deltaBalance_eq]
    apply List.sum_eq_zero
    intro x hx
    obtain ⟨q, hq, rfl⟩ := List.mem_map.mp hx
    rw [hclamp q hq]
    ring
  apply List.map_congr_left
  intro p hp
  unfold adjustedOf
  rw [if_pos (by simp [hnl p hp]), hclamp p hp, hdelta]
  simp

theorem noLimited_adjusted_eq_amountDue_witness :
    (onValid ⟨1000, 600, 200,
        [⟨"A", false, .salary 30000⟩, ⟨"B", false, .salary 30000⟩]⟩).1.map
      (fun r => r.adjustedDue) =
    (onValid ⟨1000, 600, 200,
        [⟨"A", false, .salary 30000⟩, ⟨"B", false, .salary 30000⟩]⟩).1.map
      (fun r => r.amountDue) :=
  noLimited_adjusted_eq_amountDue
    ⟨1000, 600, 200, [⟨"A", false, .salary 30000⟩, ⟨"B", false, .salary 30000⟩]⟩
    (by norm_num [validBillPay, validParticipant])
    (by decide)

/-- C8: the engine returns one result per participant, in order (the
result at index `i` is built from the participant at index `i`), together
with the summed household gross income, and it is a deterministic pure
function (equal inputs give equal outputs). -/
theorem engineContract_shape (data : BillPay) :
    (onValid data).1.length = data.participants.length ∧
    (∀ i, i < data.participants.length →
      (onValid data).1.getD i defaultInfo =
        ⟨monthlyGross (data.participants.getD i defaultParticipant),
         pctOf data (data.participants.getD i defaultParticipant),
         dueOf data (data.participants.getD i defaultParticipant),
         adjustedOf data (data.participants.getD i defaultParticipant)⟩) ∧
    (onValid data).2 = (data.participants.map monthlyGross).sum ∧
    (∀ other : BillPay, data = other → onValid data = onValid other) := by
  refine ⟨?_, ?_, ?_, ?_⟩
  · rw [onValid_fst, results_eq, List.length_map]
  · intro i h
    rw [onValid_fst]
    exact results_getD data i h
  · rw [onValid_snd]
    exact totalGross_eq data
  · intro other hother
    rw [hother]

theorem engineContract_shape_witness :
    (onValid ⟨1000, 0, 0,
        [⟨"A", false, .salary 30000⟩, ⟨"B", false, .hourly 15 40⟩]⟩).1.length = 2 ∧
    (onValid ⟨1000, 0, 0,
        [⟨"A", false, .salary 30000⟩, ⟨"B", false, .hourly 15 40⟩]⟩).2 = 4900 := by
  have h := engineContract_shape
    ⟨1000, 0, 0, [⟨"A", false, .salary 30000⟩, ⟨"B", false, .hourly 15 40⟩]⟩
  refine ⟨h.1.trans (by decide), h.2.2.1.trans ?_⟩
  norm_num [monthlyGross]

/-- C9: a limited participant with both limits nonzero and
`minimumLimit ≤ maximumLimit` ends with `adjustedDue` inside the closed
band `[minimumLimit, maximumLimit]`. -/
theorem limitedAdjustedDue_in_band (data : BillPay) (i : ℕ)
    (h : i < data.participants.length)
    (hlim : (data.participants.getD i defaultParticipant).limited = true)
    (hmin : data.minimumLimit ≠ 0) (hmax : data.maximumLimit ≠ 0)
    (hband : data.minimumLimit ≤ data.maximumLimit) :
    data.minimumLimit ≤ ((onValid data).1.getD i defaultInfo).adjustedDue ∧
    ((onValid data).1.getD i defaultInfo).adjustedDue ≤ data.maximumLimit := by
  rw [onValid_fst, results_getD data i h]
  show data.minimumLimit ≤
      adjustedOf data (data.participants.getD i defaultParticipant) ∧
    adjustedOf data (data.participants.getD i defaultParticipant) ≤
      data.maximumLimit
  unfold adjustedOf
  rw [if_neg (by rw [hlim]; simp)]
  unfold clampedOf clampDue
  rw [if_pos hlim]
  set due := dueOf data (data.participants.getD i defaultParticipant) with hdue
  by_cases h1 : data.maximumLimit ≠ 0 ∧ due > data.maximumLimit
  · rw [if_pos h1]
    exact ⟨hband, le_refl _⟩
  · rw [if_neg h1]
    by_cases h2 : data.minimumLimit ≠ 0 ∧ due < data.minimumLimit
    · rw [if_pos h2]
      exact ⟨le_refl _, hband⟩
    · rw [if_neg h2]
      exact ⟨not_lt.mp (not_and.mp h2 hmin), not_lt.mp (not_and.mp h1 hmax)⟩

theorem limitedAdjustedDue_in_band_witness :
    (300:ℚ) ≤ ((onValid ⟨1000, 400, 300,
        [⟨"D", true, .salary 30000⟩, ⟨"E", false, .salary 30000⟩]⟩).1.getD 0
      defaultInfo).adjustedDue ∧
    ((onValid ⟨1000, 400, 300,
        [⟨"D", true, .salary 30000⟩, ⟨"E", false, .salary 30000⟩]⟩).1.getD 0
      defaultInfo).adjustedDue ≤ (400:ℚ) :=
  limitedAdjustedDue_in_band
    ⟨1000, 400, 300, [⟨"D", true, .salary 30000⟩, ⟨"E", false, .salary 30000⟩]⟩
    0 (by decide) rfl (by norm_num) (by norm_num) (by norm_num)

/-- C10: under the validation preconditions every participant's gross
monthly income is strictly positive, hence the summed household gross
income is strictly positive and in particular nonzero, so the division in
the percentage step never divides by zero. -/
theorem validInput_totalGross_pos (data : BillPay)
    (hv : validBillPay data = true) :
    (∀ p ∈ data.participants, 0 < monthlyGross p) ∧
    0 < totalGross data ∧ totalGross data ≠ 0 := by
  obtain ⟨-, -, hall⟩ := validBillPay_parts data hv
  have hpos := totalGross_pos data hv
  exact ⟨fun p hp => validParticipant_gross_pos p (hall p hp), hpos, ne_of_gt hpos⟩

theorem validInput_totalGross_pos_witness :
    0 < totalGross ⟨1000, 0, 0, [⟨"F", false, .hourly 15 40⟩]⟩ ∧
    totalGross ⟨1000, 0, 0, [⟨"F", false, .hourly 15 40⟩]⟩ ≠ 0 := by
  have h := validInput_totalGross_pos ⟨1000, 0, 0, [⟨"F", false, .hourly 15 40⟩]⟩
    (by norm_num [validBillPay, validParticipant])
  exact ⟨h.2.1, h.2.2⟩

end RentShares
